import Mathlib

/-!
Verification of the relabeling pipeline and the queue manager of the
stackdriver-prometheus write-path adapter.

The relabel logic is embedded from
src/vendor/github.com/prometheus/prometheus/pkg/relabel/relabel.go.
Supporting packages (labels, config, regexp, crypto/md5, common/model) are
vendored dependencies that are not part of the sources; their behaviour is
modelled from the spec where the spec describes it, as noted on each
definition.  Go panics (nil regex dereference, the unknown-action abort,
division by zero in the HashMod branch) are modelled by the error case of
Except, and a dropped label set by the inner Option being none.
-/

/-- A single label: a (name, value) pair. -/
structure Label where
  name : String
  value : String
deriving DecidableEq, Repr

/-- A label set is an ordered sequence of labels, names unique, sorted by name. -/
abbrev Labels := List Label

/-- Modelled from the spec: lookup by name returns the value or the empty
string (spec section 3); the labels package is a vendored dependency outside
the sources. -/
def getLabel : Labels → String → String
  | [], _ => ""
  | l :: ls, n => if l.name = n then l.value else getLabel ls n

/-- Lexicographic comparison of character lists by code point. -/
def ltChars : List Char → List Char → Bool
  | [], [] => false
  | [], _ :: _ => true
  | _ :: _, [] => false
  | a :: as, b :: bs =>
    if a.toNat < b.toNat then true
    else if b.toNat < a.toNat then false
    else ltChars as bs

/-- Lexicographic string order by code point, which on UTF-8 strings agrees
with Go's byte-wise string order. -/
def strLt (a b : String) : Bool := ltChars a.toList b.toList

/-- Modelled from the spec: the label builder operation Set overwrites the
binding for a name, and the committed set is emitted sorted by name
(spec section 4.2).  On a sorted label set this is a sorted insertion. -/
def setLabel : Labels → String → String → Labels
  | [], n, v => [⟨n, v⟩]
  | l :: ls, n, v =>
    if n = l.name then ⟨n, v⟩ :: ls
    else if strLt n l.name then ⟨n, v⟩ :: l :: ls
    else l :: setLabel ls n v

/-- Modelled from the spec: the label builder operation Del removes the
binding for a name and is a no-op when the name is absent (spec section 4.2). -/
def delLabel (ls : Labels) (n : String) : Labels :=
  ls.filter (fun l => !(l.name == n))

/-- Modelled from the spec: a compiled rule regular expression.  The config
layer anchors every rule pattern full-string before compiling, so find
returns the capture groups (index 0 the whole match, an unmatched group
none) of the anchored match, or none when the pattern does not match.
names lists the capture-group names, the empty string for unnamed groups.
replaceAll rewrites every pattern match in its first argument using its
second argument as the replacement template.  The regexp and config
packages are dependencies outside the sources, hence the semantic fields. -/
structure Regexp where
  find : String → Option (List (Option String))
  names : List String
  replaceAll : String → String → String

/-- MatchString of a compiled regex: the pattern matches the string.  With
the anchoring performed by the config layer this is a full-string match. -/
def Regexp.matchString (re : Regexp) (s : String) : Bool :=
  (re.find s).isSome

/-- A character usable in a template group reference: letter, digit or
underscore. -/
def isWordChar (c : Char) : Bool := c.isAlpha || c.isDigit || c == '_'

/-- Modelled from the spec: a group-reference name made only of digits
(without leading zeros and below 10^8) refers to a group by number. -/
def refNum (name : List Char) : Option Nat :=
  if name.all Char.isDigit && !(name.head? == some '0' && decide (1 < name.length)) then
    let v := name.foldl (fun a c => a * 10 + (c.toNat - 48)) 0
    if v < 100000000 then some v else none
  else none

/-- Modelled from the spec: parse a group reference right after a dollar
sign, either braced or the longest run of word characters.  Returns the
name, its numeric reading when it is a number, and how many characters
were consumed. -/
def extractRef (s : List Char) : Option (List Char × Option Nat × Nat) :=
  match s with
  | '{' :: t =>
    let name := t.takeWhile isWordChar
    if name.length = 0 then none
    else
      match t.drop name.length with
      | '}' :: _ => some (name, refNum name, name.length + 2)
      | _ => none
  | _ =>
    let name := s.takeWhile isWordChar
    if name.length = 0 then none
    else some (name, refNum name, name.length)

/-- The substring captured by group number n, or the empty string when the
group is out of range or did not participate in the match. -/
def numRef (groups : List (Option String)) (n : Nat) : String :=
  match groups.getD n none with
  | some s => s
  | none => ""

/-- The substring captured by the first matched group with the given name,
or the empty string. -/
def namedRef (names : List String) (groups : List (Option String)) (name : String) : String :=
  match names, groups with
  | [], _ => ""
  | _ :: _, [] => ""
  | n :: ns, g :: gs =>
    if n = name then
      match g with
      | some s => s
      | none => namedRef ns gs name
    else namedRef ns gs name

/-- Modelled from the spec: expand a template against a match, character
list form.  A dollar sign introduces a group reference; a double dollar
stands for a literal dollar; a dollar not followed by a well-formed
reference is copied literally; an out-of-range or unmatched reference
expands to the empty string. -/
def expandGo (groups : List (Option String)) (names : List String) :
    Nat → List Char → List Char
  | _, [] => []
  | 0, _ :: _ => []
  | fuel + 1, '$' :: '$' :: rest => '$' :: expandGo groups names fuel rest
  | fuel + 1, '$' :: rest =>
    match extractRef rest with
    | none => '$' :: expandGo groups names fuel rest
    | some (name, numOpt, k) =>
      (match numOpt with
       | some n => numRef groups n
       | none => namedRef names groups (String.mk name)).toList
        ++ expandGo groups names fuel (rest.drop k)
  | fuel + 1, c :: rest => c :: expandGo groups names fuel rest

/-- Expand a template against a match, character list form.  Every step
consumes at least one character, so the fuel argument of expandGo, seeded
with the template length, never runs out. -/
def expandChars (groups : List (Option String)) (names : List String)
    (l : List Char) : List Char :=
  expandGo groups names l.length l

/-- Expand a template string against the capture groups of a match. -/
def expandTemplate (t : String) (groups : List (Option String)) (names : List String) : String :=
  String.mk (expandChars groups names t.toList)

/-- Modelled from the spec: label-name validity, the external predicate the
relabeler consults (spec sections 4.1 and 9): nonempty, first character a
letter or underscore, the rest letters, digits or underscores. -/
def isValidLabelName (s : String) : Bool :=
  match s.toList with
  | [] => false
  | c :: rest =>
    (c.isAlpha || c == '_') && rest.all (fun d => d.isAlpha || d.isDigit || d == '_')

/-- UTF-8 encoding of one character, as byte values. -/
def charBytes (c : Char) : List Nat :=
  let n := c.toNat
  if n < 128 then [n]
  else if n < 2048 then [192 + n / 64, 128 + n % 64]
  else if n < 65536 then [224 + n / 4096, 128 + n / 64 % 64, 128 + n % 64]
  else [240 + n / 262144, 128 + n / 4096 % 64, 128 + n / 64 % 64, 128 + n % 64]

/-- UTF-8 bytes of a string, the byte sequence Go hashes. -/
def strBytes (s : String) : List Nat :=
  s.toList.foldr (fun c acc => charBytes c ++ acc) []

/-- The 64 MD5 round constants. -/
def mdK : List Nat :=
  [0xd76aa478, 0xe8c7b756, 0x242070db, 0xc1bdceee,
   0xf57c0faf, 0x4787c62a, 0xa8304613, 0xfd469501,
   0x698098d8, 0x8b44f7af, 0xffff5bb1, 0x895cd7be,
   0x6b901122, 0xfd987193, 0xa679438e, 0x49b40821,
   0xf61e2562, 0xc040b340, 0x265e5a51, 0xe9b6c7aa,
   0xd62f105d, 0x02441453, 0xd8a1e681, 0xe7d3fbc8,
   0x21e1cde6, 0xc33707d6, 0xf4d50d87, 0x455a14ed,
   0xa9e3e905, 0xfcefa3f8, 0x676f02d9, 0x8d2a4c8a,
   0xfffa3942, 0x8771f681, 0x6d9d6122, 0xfde5380c,
   0xa4beea44, 0x4bdecfa9, 0xf6bb4b60, 0xbebfbc70,
   0x289b7ec6, 0xeaa127fa, 0xd4ef3085, 0x04881d05,
   0xd9d4d039, 0xe6db99e5, 0x1fa27cf8, 0xc4ac5665,
   0xf4292244, 0x432aff97, 0xab9423a7, 0xfc93a039,
   0x655b59c3, 0x8f0ccc92, 0xffeff47d, 0x85845dd1,
   0x6fa87e4f, 0xfe2ce6e0, 0xa3014314, 0x4e0811a1,
   0xf7537e82, 0xbd3af235, 0x2ad7d2bb, 0xeb86d391]

/-- The 64 per-round left-rotation amounts of MD5. -/
def mdS : List Nat :=
  [7, 12, 17, 22, 7, 12, 17, 22, 7, 12, 17, 22, 7, 12, 17, 22,
   5, 9, 14, 20, 5, 9, 14, 20, 5, 9, 14, 20, 5, 9, 14, 20,
   4, 11, 16, 23, 4, 11, 16, 23, 4, 11, 16, 23, 4, 11, 16, 23,
   6, 10, 15, 21, 6, 10, 15, 21, 6, 10, 15, 21, 6, 10, 15, 21]

/-- Left rotation of a 32-bit quantity. -/
def rotl32 (x n : Nat) : Nat :=
  (((x % 2 ^ 32) <<< n) % 2 ^ 32) ||| ((x % 2 ^ 32) >>> (32 - n))

/-- Group a byte list into 32-bit little-endian words. -/
def toWordsLE : List Nat → List Nat
  | b0 :: b1 :: b2 :: b3 :: rest =>
    (b0 + 256 * b1 + 65536 * b2 + 16777216 * b3) :: toWordsLE rest
  | _ => []

/-- One MD5 round applied to the state (A, B, C, D). -/
def md5Round (M : List Nat) (st : Nat × Nat × Nat × Nat) (i : Nat) : Nat × Nat × Nat × Nat :=
  let (A, B, C, D) := st
  let f :=
    if i < 16 then (B &&& C) ||| ((B ^^^ 4294967295) &&& D)
    else if i < 32 then (D &&& B) ||| ((D ^^^ 4294967295) &&& C)
    else if i < 48 then B ^^^ C ^^^ D
    else C ^^^ (B ||| (D ^^^ 4294967295))
  let g :=
    if i < 16 then i
    else if i < 32 then (5 * i + 1) % 16
    else if i < 48 then (3 * i + 5) % 16
    else (7 * i) % 16
  let F := (f + A + mdK.getD i 0 + M.getD g 0) % 2 ^ 32
  (D, (B + rotl32 F (mdS.getD i 0)) % 2 ^ 32, B, C)

/-- Process one 64-byte block. -/
def md5Block (st : Nat × Nat × Nat × Nat) (M : List Nat) : Nat × Nat × Nat × Nat :=
  let (a0, b0, c0, d0) := st
  let (A, B, C, D) := (List.range 64).foldl (md5Round M) st
  ((a0 + A) % 2 ^ 32, (b0 + B) % 2 ^ 32, (c0 + C) % 2 ^ 32, (d0 + D) % 2 ^ 32)

def chunk64Go : Nat → List Nat → List (List Nat)
  | _, [] => []
  | 0, _ :: _ => []
  | fuel + 1, b :: rest => ((b :: rest).take 64) :: chunk64Go fuel ((b :: rest).drop 64)

/-- Split a byte list into 64-byte chunks.  Every step consumes at least
one byte, so the fuel argument of chunk64Go, seeded with the length,
never runs out. -/
def chunk64 (l : List Nat) : List (List Nat) :=
  chunk64Go l.length l

/-- Little-endian 8-byte encoding of a 64-bit value. -/
def le8 (v : Nat) : List Nat :=
  [v % 256, v >>> 8 % 256, v >>> 16 % 256, v >>> 24 % 256,
   v >>> 32 % 256, v >>> 40 % 256, v >>> 48 % 256, v >>> 56 % 256]

/-- MD5 padding: a 1-bit, zeros to 56 mod 64 bytes, then the bit length
little-endian. -/
def md5Pad (msg : List Nat) : List Nat :=
  msg ++ 128 :: List.replicate ((120 - (msg.length + 1) % 64) % 64) 0
      ++ le8 ((8 * msg.length) % 2 ^ 64)

/-- The four 32-bit words of the MD5 digest of a byte message. -/
def md5Words (msg : List Nat) : Nat × Nat × Nat × Nat :=
  (chunk64 (md5Pad msg)).foldl (fun st blk => md5Block st (toWordsLE blk))
    (1732584193, 4023233417, 2562383102, 271733878)

/-- The four bytes of a 32-bit word, little-endian. -/
def wordLE (w : Nat) : List Nat :=
  [w % 256, w / 256 % 256, w / 65536 % 256, w / 16777216 % 256]

/-- MD5 (RFC 1321) of a byte message: crypto/md5 is a Go standard-library
dependency outside the sources, implemented here in full so the HashMod
branch is executable. -/
def md5Bytes (msg : List Nat) : List Nat :=
  let (a, b, c, d) := md5Words msg
  wordLE a ++ wordLE b ++ wordLE c ++ wordLE d

/-- The Go helper sum64 of relabel.go: fold the 16 hash bytes into a
64-bit accumulator, or-ing byte i shifted left by (16 - i - 1) * 8 bits.
A Go shift of a uint64 by 64 or more yields zero, hence the reduction
modulo 2 to the 64 of each shifted byte. -/
def sum64Go : Nat → Nat → List Nat → Nat
  | _, s, [] => s
  | i, s, b :: rest =>
    sum64Go (i + 1) (s ||| ((b <<< ((16 - i - 1) * 8)) % 2 ^ 64)) rest

/-- sum64 sums the md5 hash to a uint64 (relabel.go line 119). -/
def sum64 (hash : List Nat) : Nat :=
  sum64Go 0 0 hash

/-- Big-endian value of a byte list. -/
def beBytes (bs : List Nat) : Nat :=
  bs.foldl (fun a b => a * 256 + b) 0

/-- A relabel rule (spec section 3).  Go's Action is a string type; the
seven known values are listed in knownActions, any other value reaches
the abort branch.  The regex is optional: a rule whose regex was never
initialized carries none, and dereferencing it is the nil-regex
programmer error.  The modulus is an unsigned 64-bit integer. -/
structure RelabelConfig where
  sourceLabels : List String
  separator : String
  regex : Option Regexp
  modulus : Nat
  targetLabel : String
  replacement : String
  action : String

/-- The seven known relabel actions. -/
def knownActions : List String :=
  ["replace", "keep", "drop", "hashmod", "labelmap", "labeldrop", "labelkeep"]

/-- The probe string: the values of the source labels (missing name gives
the empty string) joined with the separator (relabel.go lines 43 to 47). -/
def probeVal (lset : Labels) (cfg : RelabelConfig) : String :=
  String.intercalate cfg.separator (cfg.sourceLabels.map (fun ln => getLabel lset ln))

/-- One relabel rule applied to a label set (function relabel of
relabel.go).  The ok none result is a dropped label set (Go nil); the
error result is a Go panic: dereferencing a nil regex, dividing by a zero
modulus, or the unknown-action abort of the default branch.  The builder
seeded from the input set is modelled by applying delLabel and setLabel
directly to the (sorted) input set. -/
def relabel (lset : Labels) (cfg : RelabelConfig) : Except String (Option Labels) :=
  let val := probeVal lset cfg
  if cfg.action = "drop" then
    match cfg.regex with
    | none => .error "nil regex"
    | some re => if re.matchString val then .ok none else .ok (some lset)
  else if cfg.action = "keep" then
    match cfg.regex with
    | none => .error "nil regex"
    | some re => if !re.matchString val then .ok none else .ok (some lset)
  else if cfg.action = "replace" then
    match cfg.regex with
    | none => .error "nil regex"
    | some re =>
      match re.find val with
      | none => .ok (some lset)
      | some groups =>
        let target := expandTemplate cfg.targetLabel groups re.names
        if !isValidLabelName target then .ok (some (delLabel lset cfg.targetLabel))
        else
          let res := expandTemplate cfg.replacement groups re.names
          if res = "" then .ok (some (delLabel lset cfg.targetLabel))
          else .ok (some (setLabel lset target res))
  else if cfg.action = "hashmod" then
    if cfg.modulus = 0 then .error "integer divide by zero"
    else
      let m := sum64 (md5Bytes (strBytes val)) % cfg.modulus
      .ok (some (setLabel lset cfg.targetLabel (toString m)))
  else if cfg.action = "labelmap" then
    match cfg.regex with
    | none => .error "nil regex"
    | some re =>
      .ok (some (lset.foldl (fun acc l =>
        if re.matchString l.name then
          setLabel acc (re.replaceAll l.name cfg.replacement) l.value
        else acc) lset))
  else if cfg.action = "labeldrop" then
    match cfg.regex with
    | none => .error "nil regex"
    | some re =>
      .ok (some (lset.foldl (fun acc l =>
        if re.matchString l.name then delLabel acc l.name else acc) lset))
  else if cfg.action = "labelkeep" then
    match cfg.regex with
    | none => .error "nil regex"
    | some re =>
      .ok (some (lset.foldl (fun acc l =>
        if !re.matchString l.name then delLabel acc l.name else acc) lset))
  else .error "unknown relabel action"

/-- The relabel pipeline (function Process of relabel.go): rules applied
in input order, short-circuiting on a dropped label set. -/
def Process : Labels → List RelabelConfig → Except String (Option Labels)
  | lset, [] => .ok (some lset)
  | lset, cfg :: cfgs =>
    match relabel lset cfg with
    | .error e => .error e
    | .ok none => .ok none
    | .ok (some l) => Process l cfgs

/-- Modelled from the spec: the state of one shard (spec sections 3, 4.3
and 4.4) — the queue manager implementation is not among the sources, only
its test is.  buffer is the bounded queue of routed samples, pending the
batch under construction, and inflight the number of Sink.Store calls this
shard's worker is currently executing. -/
structure ShardState where
  buffer : List Nat
  pending : List Nat
  inflight : Nat
deriving DecidableEq, Repr

/-- Modelled from the spec: the queue manager owns a fixed-width array of
shards, one worker per shard (spec sections 4.3 and 4.5). -/
structure QMState where
  shards : List ShardState
deriving DecidableEq, Repr

/-- The initial queue manager state: n shards, all buffers empty, no
worker inside Sink.Store. -/
def initQM (n : Nat) : QMState :=
  ⟨List.replicate n ⟨[], [], 0⟩⟩

/-- Replace shard i of the state. -/
def setShard (q : QMState) (i : Nat) (s : ShardState) : QMState :=
  ⟨q.shards.set i s⟩

/-- The number of Sink.Store invocations currently executing across all
shard workers. -/
def storeCalls (q : QMState) : Nat :=
  (q.shards.map ShardState.inflight).sum

/-- Modelled from the spec: the interleaving steps of the queue manager
core (spec sections 4.3 to 4.5 and 5).  A producer appends a sample into
the buffer of the shard its hash selects when there is room, and drops it
when the buffer is full; a shard worker moves a buffered sample into its
pending batch, enters Sink.Store only when it is not already inside a
call (the call is synchronous, one worker per shard), and on return
clears the batch. -/
inductive QMStep (cap : Nat) : QMState → QMState → Prop
  | append (q : QMState) (i x : Nat) (sh : ShardState)
      (hi : q.shards.get? i = some sh) (hroom : sh.buffer.length < cap) :
      QMStep cap q (setShard q i { sh with buffer := sh.buffer ++ [x] })
  | appendFull (q : QMState) (i x : Nat) (sh : ShardState)
      (hi : q.shards.get? i = some sh) (hfull : cap ≤ sh.buffer.length) :
      QMStep cap q q
  | recv (q : QMState) (i x : Nat) (sh : ShardState) (rest : List Nat)
      (hi : q.shards.get? i = some sh) (hidle : sh.inflight = 0)
      (hbuf : sh.buffer = x :: rest) :
      QMStep cap q (setShard q i { sh with buffer := rest, pending := sh.pending ++ [x] })
  | flush (q : QMState) (i : Nat) (sh : ShardState)
      (hi : q.shards.get? i = some sh) (hidle : sh.inflight = 0)
      (hpend : sh.pending ≠ []) :
      QMStep cap q (setShard q i { sh with inflight := 1 })
  | storeDone (q : QMState) (i : Nat) (sh : ShardState)
      (hi : q.shards.get? i = some sh) (hin : sh.inflight = 1) :
      QMStep cap q (setShard q i { sh with inflight := 0, pending := [] })

/-- The states the queue manager can be in after any interleaving of
producer and worker steps from the initial state with n shards. -/
inductive QMReachable (cap n : Nat) : QMState → Prop
  | init : QMReachable cap n (initQM n)
  | step {q q' : QMState} : QMReachable cap n q → QMStep cap q q' → QMReachable cap n q'

instance {ε α : Type} [DecidableEq ε] [DecidableEq α] : DecidableEq (Except ε α) := fun x y =>
  match x, y with
  | .error a, .error b =>
    if h : a = b then .isTrue (by rw [h])
    else .isFalse (fun he => by cases he; exact h rfl)
  | .error _, .ok _ => .isFalse (fun h => by cases h)
  | .ok _, .error _ => .isFalse (fun h => by cases h)
  | .ok a, .ok b =>
    if h : a = b then .isTrue (by rw [h])
    else .isFalse (fun he => by cases he; exact h rfl)

/-- A compiled regex matching exactly the string canary, with no capture
groups beyond the whole match. -/
def canaryRe : Regexp :=
  { find := fun s => if s = "canary" then some [some "canary"] else none
    names := [""]
    replaceAll := fun s _ => s }

/-- A compiled regex matching exactly the string job. -/
def jobRe : Regexp :=
  { find := fun s => if s = "job" then some [some "job"] else none
    names := [""]
    replaceAll := fun s _ => s }

/-- A compiled regex for a host:port pattern, evaluated here only at the
probe string of the replace example. -/
def addrRe : Regexp :=
  { find := fun s =>
      if s = "a.example:80" then some [some "a.example:80", some "a.example", some "80"]
      else none
    names := ["", "", ""]
    replaceAll := fun s _ => s }

/-- A compiled regex that matches nothing. -/
def neverRe : Regexp :=
  { find := fun _ => none
    names := [""]
    replaceAll := fun s _ => s }

def exCanary : Labels := [⟨"job", "canary"⟩]

def exProd : Labels := [⟨"job", "prod"⟩]

def exAddr : Labels := [⟨"addr", "a.example:80"⟩]

def exInst : Labels := [⟨"instance", "foo"⟩]

def exTwo : Labels := [⟨"instance", "foo"⟩, ⟨"job", "x"⟩]

def dropCfg : RelabelConfig :=
  { sourceLabels := ["job"], separator := ";", regex := some canaryRe
    modulus := 0, targetLabel := "", replacement := "", action := "drop" }

def keepCfg : RelabelConfig :=
  { sourceLabels := ["job"], separator := ";", regex := some canaryRe
    modulus := 0, targetLabel := "", replacement := "", action := "keep" }

def replaceAddrCfg : RelabelConfig :=
  { sourceLabels := ["addr"], separator := ";", regex := some addrRe
    modulus := 0, targetLabel := "host", replacement := "$1", action := "replace" }

def hashCfg : RelabelConfig :=
  { sourceLabels := ["instance"], separator := ";", regex := none
    modulus := 8, targetLabel := "shard", replacement := "", action := "hashmod" }

def hashEmptyCfg : RelabelConfig :=
  { sourceLabels := [], separator := ";", regex := none
    modulus := 1000000007, targetLabel := "shard", replacement := "", action := "hashmod" }

def unknownCfg : RelabelConfig :=
  { sourceLabels := [], separator := ";", regex := some canaryRe
    modulus := 0, targetLabel := "", replacement := "", action := "foobar" }

def labelKeepJobCfg : RelabelConfig :=
  { sourceLabels := [], separator := ";", regex := some jobRe
    modulus := 0, targetLabel := "", replacement := "", action := "labelkeep" }

/-- A replace rule whose replacement template is empty but whose regex
never matches the probe string. -/
def emptyRepNoMatchCfg : RelabelConfig :=
  { sourceLabels := ["a"], separator := ";", regex := some neverRe
    modulus := 0, targetLabel := "a", replacement := "", action := "replace" }

/-- A replace rule whose replacement template is empty and whose regex
matches the probe string of exCanary. -/
def emptyRepMatchCfg : RelabelConfig :=
  { sourceLabels := ["job"], separator := ";", regex := some canaryRe
    modulus := 0, targetLabel := "job", replacement := "", action := "replace" }

def exA : Labels := [⟨"a", "x"⟩]

theorem relabel_drop_eq (lset : Labels) (cfg : RelabelConfig) (re : Regexp)
    (ha : cfg.action = "drop") (hre : cfg.regex = some re) :
    relabel lset cfg =
      if re.matchString (probeVal lset cfg) then .ok none else .ok (some lset) := by
  simp only [relabel, ha, hre, String.reduceEq, reduceIte]

theorem relabel_keep_eq (lset : Labels) (cfg : RelabelConfig) (re : Regexp)
    (ha : cfg.action = "keep") (hre : cfg.regex = some re) :
    relabel lset cfg =
      if re.matchString (probeVal lset cfg) then .ok (some lset) else .ok none := by
  simp only [relabel, ha, hre, String.reduceEq, reduceIte]
  by_cases h : re.matchString (probeVal lset cfg) <;> simp [h]

theorem relabel_replace_eq (lset : Labels) (cfg : RelabelConfig) (re : Regexp)
    (ha : cfg.action = "replace") (hre : cfg.regex = some re) :
    relabel lset cfg =
      match re.find (probeVal lset cfg) with
      | none => .ok (some lset)
      | some groups =>
        if !isValidLabelName (expandTemplate cfg.targetLabel groups re.names) then
          .ok (some (delLabel lset cfg.targetLabel))
        else if expandTemplate cfg.replacement groups re.names = "" then
          .ok (some (delLabel lset cfg.targetLabel))
        else
          .ok (some (setLabel lset (expandTemplate cfg.targetLabel groups re.names)
            (expandTemplate cfg.replacement groups re.names))) := by
  simp only [relabel, ha, hre, String.reduceEq, reduceIte]

theorem relabel_hashmod_eq (lset : Labels) (cfg : RelabelConfig)
    (ha : cfg.action = "hashmod") :
    relabel lset cfg =
      if cfg.modulus = 0 then .error "integer divide by zero"
      else .ok (some (setLabel lset cfg.targetLabel
        (toString (sum64 (md5Bytes (strBytes (probeVal lset cfg))) % cfg.modulus)))) := by
  simp only [relabel, ha, String.reduceEq, reduceIte]

theorem relabel_labelmap_eq (lset : Labels) (cfg : RelabelConfig) (re : Regexp)
    (ha : cfg.action = "labelmap") (hre : cfg.regex = some re) :
    relabel lset cfg =
      .ok (some (lset.foldl (fun acc l =>
        if re.matchString l.name then
          setLabel acc (re.replaceAll l.name cfg.replacement) l.value
        else acc) lset)) := by
  simp only [relabel, ha, hre, String.reduceEq, reduceIte]

theorem relabel_labeldrop_eq (lset : Labels) (cfg : RelabelConfig) (re : Regexp)
    (ha : cfg.action = "labeldrop") (hre : cfg.regex = some re) :
    relabel lset cfg =
      .ok (some (lset.foldl (fun acc l =>
        if re.matchString l.name then delLabel acc l.name else acc) lset)) := by
  simp only [relabel, ha, hre, String.reduceEq, reduceIte]

theorem relabel_labelkeep_eq (lset : Labels) (cfg : RelabelConfig) (re : Regexp)
    (ha : cfg.action = "labelkeep") (hre : cfg.regex = some re) :
    relabel lset cfg =
      .ok (some (lset.foldl (fun acc l =>
        if !re.matchString l.name then delLabel acc l.name else acc) lset)) := by
  simp only [relabel, ha, hre, String.reduceEq, reduceIte]

theorem relabel_unknown_eq (lset : Labels) (cfg : RelabelConfig)
    (ha : cfg.action ∉ knownActions) :
    relabel lset cfg = .error "unknown relabel action" := by
  simp only [knownActions, List.mem_cons, List.not_mem_nil, or_false, not_or] at ha
  obtain ⟨h1, h2, h3, h4, h5, h6, h7⟩ := ha
  simp [relabel, h1, h2, h3, h4, h5, h6, h7]

theorem foldlDel_eq_filter (p : String → Bool) :
    ∀ (ls : List Label) (acc : Labels),
      ls.foldl (fun acc l => if !p l.name then delLabel acc l.name else acc) acc
        = acc.filter (fun x => ls.all (fun l => p l.name || !(x.name == l.name))) := by
  intro ls
  induction ls with
  | nil => intro acc; simp
  | cons l ls ih =>
    intro acc
    simp only [List.foldl_cons, List.all_cons]
    rw [ih]
    by_cases hp : p l.name
    · simp only [hp, Bool.not_true, if_false, Bool.true_or]
      simp
    · simp only [Bool.not_eq_true] at hp
      simp only [hp, Bool.not_false, if_true, delLabel, List.filter_filter, Bool.false_or]
      apply List.filter_congr
      intro x _
      cases hx : x.name == l.name <;> simp [hx]

theorem filter_all_name (p : String → Bool) (ls : Labels) :
    ls.filter (fun x => ls.all (fun l => p l.name || !(x.name == l.name)))
      = ls.filter (fun x => p x.name) := by
  apply List.filter_congr
  intro x hx
  cases hpx : p x.name
  · apply Bool.eq_false_iff.mpr
    intro h
    rw [List.all_eq_true] at h
    have := h x hx
    simp [hpx] at this
  · rw [List.all_eq_true]
    intro l _
    by_cases hn : x.name = l.name
    · rw [← hn, hpx]; simp
    · simp [hn]

theorem labelKeep_filter (p : String → Bool) (ls : Labels) :
    ls.foldl (fun acc l => if !p l.name then delLabel acc l.name else acc) ls
      = ls.filter (fun x => p x.name) := by
  rw [foldlDel_eq_filter, filter_all_name]

theorem labelKeep_idem (p : String → Bool) (ls : Labels) :
    (ls.filter (fun x => p x.name)).foldl
        (fun acc l => if !p l.name then delLabel acc l.name else acc)
        (ls.filter (fun x => p x.name))
      = ls.filter (fun x => p x.name) := by
  rw [labelKeep_filter, List.filter_filter]
  apply List.filter_congr
  intro x _
  simp

theorem shiftLeft_ge64_mod (x k : Nat) (h : 64 ≤ k) : (x <<< k) % 2 ^ 64 = 0 := by
  rw [Nat.shiftLeft_eq]
  have hk : 2 ^ k = 2 ^ (k - 64) * 2 ^ 64 := by
    rw [← pow_add]
    congr 1
    omega
  rw [hk, ← Nat.mul_assoc]
  exact Nat.mul_mod_left _ _

theorem sum64Go_hi : ∀ (hi : List Nat) (i : Nat) (lo : List Nat),
    i + hi.length ≤ 8 → sum64Go i 0 (hi ++ lo) = sum64Go (i + hi.length) 0 lo := by
  intro hi
  induction hi with
  | nil => intro i lo _; simp
  | cons b hi ih =>
    intro i lo h
    simp only [List.cons_append, sum64Go, List.append_eq]
    rw [shiftLeft_ge64_mod _ _ (by simp at h; omega)]
    simp only [Nat.or_zero]
    rw [ih (i + 1) lo (by simp at h ⊢; omega)]
    congr 1
    simp
    omega

theorem sum64Go_lo : ∀ (bs : List Nat) (i v : Nat),
    (∀ b ∈ bs, b < 256) → i + bs.length = 16 → 8 ≤ i →
    sum64Go i (2 ^ (8 * bs.length) * v) bs = bs.foldl (fun a b => a * 256 + b) v := by
  intro bs
  induction bs with
  | nil => intro i v _ _ _; simp [sum64Go]
  | cons b bs ih =>
    intro i v hb hlen hi
    simp only [List.length_cons] at hlen
    simp only [sum64Go, List.foldl_cons, List.length_cons]
    have hshift : (16 - i - 1) * 8 = 8 * bs.length := by omega
    have hblt : b < 256 := hb b (List.mem_cons_self _ _)
    have hmod : (b <<< ((16 - i - 1) * 8)) % 2 ^ 64 = b <<< (8 * bs.length) := by
      rw [hshift, Nat.shiftLeft_eq]
      apply Nat.mod_eq_of_lt
      calc b * 2 ^ (8 * bs.length) < 256 * 2 ^ (8 * bs.length) := by
            exact (Nat.mul_lt_mul_right (by positivity)).mpr hblt
        _ = 2 ^ (8 * bs.length + 8) := by rw [pow_add]; ring
        _ ≤ 2 ^ 64 := Nat.pow_le_pow_right (by norm_num) (by omega)
    rw [hmod]
    have hor : 2 ^ (8 * (bs.length + 1)) * v ||| b <<< (8 * bs.length)
        = 2 ^ (8 * bs.length) * (v * 256 + b) := by
      rw [Nat.shiftLeft_eq]
      have hb2 : b * 2 ^ (8 * bs.length) < 2 ^ (8 * (bs.length + 1)) := by
        calc b * 2 ^ (8 * bs.length) < 256 * 2 ^ (8 * bs.length) := by
              exact (Nat.mul_lt_mul_right (by positivity)).mpr hblt
          _ = 2 ^ (8 * (bs.length + 1)) := by
              rw [show 8 * (bs.length + 1) = 8 * bs.length + 8 by ring, pow_add]; ring
      rw [← Nat.mul_add_lt_is_or hb2 v]
      rw [show 8 * (bs.length + 1) = 8 * bs.length + 8 by ring, pow_add]
      ring
    rw [hor]
    exact ih (i + 1) (v * 256 + b) (fun x hx => hb x (List.mem_cons_of_mem _ hx))
      (by omega) (by omega)

theorem sum64_wordLE (a b c d : Nat) :
    sum64 (wordLE a ++ wordLE b ++ wordLE c ++ wordLE d) = beBytes (wordLE c ++ wordLE d) := by
  have hlo : ∀ x ∈ wordLE c ++ wordLE d, x < 256 := by
    intro x hx
    simp only [wordLE, List.mem_append, List.mem_cons, List.not_mem_nil, or_false] at hx
    rcases hx with h | h <;> rcases h with h | h | h | h <;> subst h <;>
      exact Nat.mod_lt _ (by norm_num)
  have happ : wordLE a ++ wordLE b ++ wordLE c ++ wordLE d
      = (wordLE a ++ wordLE b) ++ (wordLE c ++ wordLE d) := by
    simp [List.append_assoc]
  rw [sum64, happ, sum64Go_hi (wordLE a ++ wordLE b) 0 (wordLE c ++ wordLE d) (by simp [wordLE])]
  have hlen : (0 + (wordLE a ++ wordLE b).length) = 8 := by simp [wordLE]
  rw [hlen]
  have h0 : (0 : Nat) = 2 ^ (8 * (wordLE c ++ wordLE d).length) * 0 := by ring
  rw [h0, sum64Go_lo (wordLE c ++ wordLE d) 8 0 hlo (by simp [wordLE]) (by norm_num)]
  rfl

theorem sum64_md5 (m : List Nat) :
    sum64 (md5Bytes m) = beBytes ((md5Bytes m).drop 8) := by
  rcases hmw : md5Words m with ⟨a, b, c, d⟩
  have hb : md5Bytes m = wordLE a ++ wordLE b ++ wordLE c ++ wordLE d := by
    unfold md5Bytes
    rw [hmw]
  rw [hb, sum64_wordLE]
  congr 1

theorem qm_step_length {cap : Nat} {q q' : QMState} (h : QMStep cap q q') :
    q'.shards.length = q.shards.length := by
  cases h <;> simp [setShard]

theorem qm_step_inflight {cap : Nat} {q q' : QMState} (h : QMStep cap q q')
    (hq : ∀ sh ∈ q.shards, sh.inflight ≤ 1) :
    ∀ sh ∈ q'.shards, sh.inflight ≤ 1 := by
  cases h with
  | append i x sh hi hroom =>
    intro sh' hsh'
    rcases List.mem_or_eq_of_mem_set hsh' with h | h
    · exact hq sh' h
    · subst h
      exact hq sh (List.get?_mem hi)
  | appendFull i x sh hi hfull => exact hq
  | recv i x sh rest hi hidle hbuf =>
    intro sh' hsh'
    rcases List.mem_or_eq_of_mem_set hsh' with h | h
    · exact hq sh' h
    · subst h
      exact hq sh (List.get?_mem hi)
  | flush i sh hi hidle hpend =>
    intro sh' hsh'
    rcases List.mem_or_eq_of_mem_set hsh' with h | h
    · exact hq sh' h
    · subst h
      exact Nat.le_refl 1
  | storeDone i sh hi hin =>
    intro sh' hsh'
    rcases List.mem_or_eq_of_mem_set hsh' with h | h
    · exact hq sh' h
    · subst h
      exact Nat.zero_le 1

theorem qm_reachable_inv {cap n : Nat} {q : QMState} (h : QMReachable cap n q) :
    q.shards.length = n ∧ ∀ sh ∈ q.shards, sh.inflight ≤ 1 := by
  induction h with
  | init =>
    constructor
    · simp [initQM]
    · intro sh hsh
      rw [List.eq_of_mem_replicate hsh]
      exact Nat.zero_le 1
  | step _ hstep ih =>
    obtain ⟨hlen, hinv⟩ := ih
    exact ⟨(qm_step_length hstep).trans hlen, qm_step_inflight hstep hinv⟩

theorem sum_le_length_of_le_one : ∀ (l : List Nat), (∀ x ∈ l, x ≤ 1) → l.sum ≤ l.length := by
  intro l
  induction l with
  | nil => intro _; simp
  | cons x l ih =>
    intro h
    simp only [List.sum_cons, List.length_cons]
    have hx := h x (List.mem_cons_self _ _)
    have hl := ih (fun y hy => h y (List.mem_cons_of_mem _ hy))
    omega

set_option maxRecDepth 40000 in
/-- Sanity anchor: the embedded MD5 reproduces the RFC 1321 test vector of
the empty message. -/
theorem md5_empty_vector :
    md5Bytes (strBytes "") = [0xd4, 0x1d, 0x8c, 0xd9, 0x8f, 0x00, 0xb2, 0x04,
      0xe9, 0x80, 0x09, 0x98, 0xec, 0xf8, 0x42, 0x7e] := by decide

set_option maxRecDepth 40000 in
/-- Sanity anchor: the embedded MD5 reproduces the RFC 1321 test vector of
the message abc. -/
theorem md5_abc_vector :
    md5Bytes (strBytes "abc") = [0x90, 0x01, 0x50, 0x98, 0x3c, 0xd2, 0x4f, 0xb0,
      0xd6, 0x96, 0x3f, 0x7d, 0x28, 0xe1, 0x7f, 0x72] := by decide

/-- C1: at any instant of the queue manager's operation — in any state
reachable by interleaving producer and worker steps from the initial state
with n shards — the number of threads concurrently executing Sink.Store is
at most n, the shard count, regardless of how many samples have been
appended. -/
theorem qm_store_concurrency_bound (cap n : Nat) (q : QMState)
    (h : QMReachable cap n q) : storeCalls q ≤ n := by
  obtain ⟨hlen, hinv⟩ := qm_reachable_inv h
  calc storeCalls q ≤ (q.shards.map ShardState.inflight).length := by
        apply sum_le_length_of_le_one
        intro x hx
        obtain ⟨sh, hsh, rfl⟩ := List.mem_map.mp hx
        exact hinv sh hsh
    _ = q.shards.length := List.length_map _ _
    _ = n := hlen

/-- Witness for C1: a concrete reachable state of a two-shard manager with
one worker inside Sink.Store. -/
theorem qm_store_concurrency_bound_witness :
    storeCalls ⟨[⟨[], [5], 1⟩, ⟨[], [], 0⟩]⟩ ≤ 2 := by
  apply qm_store_concurrency_bound 4 2
  have h0 : QMReachable 4 2 (initQM 2) := QMReachable.init
  have h1 := h0.step (QMStep.append (initQM 2) 0 5 ⟨[], [], 0⟩ rfl (by decide))
  have h2 := h1.step (QMStep.recv _ 0 5 ⟨[5], [], 0⟩ [] rfl rfl rfl)
  have h3 := h2.step (QMStep.flush _ 0 ⟨[], [5], 0⟩ rfl rfl (by decide))
  exact h3

/-- C2: Process applies the rules in order with the output of each rule as
the input of the next; a rule yielding bottom short-circuits the pipeline
and the remaining rules are not applied; the empty tail returns the label
set produced by the last rule. -/
theorem process_pipeline_order (lset : Labels) (cfg : RelabelConfig)
    (cfgs : List RelabelConfig) :
    Process lset [] = .ok (some lset)
    ∧ (relabel lset cfg = .ok none → Process lset (cfg :: cfgs) = .ok none)
    ∧ (∀ l, relabel lset cfg = .ok (some l) →
        Process lset (cfg :: cfgs) = Process l cfgs) := by
  refine ⟨rfl, ?_, ?_⟩
  · intro h
    simp [Process, h]
  · intro l h
    simp [Process, h]

/-- Witness for C2: a matching drop rule short-circuits a concrete
pipeline, and a passing keep rule feeds its output to the tail. -/
theorem process_pipeline_order_witness :
    Process exCanary [dropCfg] = .ok none
    ∧ Process exCanary (keepCfg :: [dropCfg]) = Process exCanary [dropCfg] := by
  constructor
  · exact (process_pipeline_order exCanary dropCfg []).2.1 (by decide)
  · exact (process_pipeline_order exCanary keepCfg [dropCfg]).2.2 exCanary (by decide)

/-- C3: with action Drop, relabel yields bottom exactly when the anchored
full-string regex matches the probe string V; with action Keep, exactly
when it does not match. -/
theorem relabel_drop_keep_filter (lset : Labels) (cfg : RelabelConfig) (re : Regexp)
    (hre : cfg.regex = some re) :
    (cfg.action = "drop" →
      (relabel lset cfg = .ok none ↔ re.matchString (probeVal lset cfg) = true)) ∧
    (cfg.action = "keep" →
      (relabel lset cfg = .ok none ↔ re.matchString (probeVal lset cfg) = false)) := by
  constructor
  · intro ha
    rw [relabel_drop_eq lset cfg re ha hre]
    by_cases h : re.matchString (probeVal lset cfg) <;> simp [h]
  · intro ha
    rw [relabel_keep_eq lset cfg re ha hre]
    by_cases h : re.matchString (probeVal lset cfg) <;> simp [h]

/-- Witness for C3: a drop rule drops the matching canary label set, and a
keep rule drops the non-matching prod label set. -/
theorem relabel_drop_keep_filter_witness :
    relabel exCanary dropCfg = .ok none ∧ relabel exProd keepCfg = .ok none := by
  constructor
  · exact ((relabel_drop_keep_filter exCanary dropCfg canaryRe rfl).1 rfl).mpr (by decide)
  · exact ((relabel_drop_keep_filter exProd keepCfg canaryRe rfl).2 rfl).mpr (by decide)

/-- C4: a Replace rule is a no-op when the regex has no match in the probe
string; otherwise, with N the expanded target-label template and R the
expanded replacement template, it deletes the target label when N is not a
valid label name, deletes the target label when R is empty, and otherwise
sets label N to R. -/
theorem relabel_replace_semantics (lset : Labels) (cfg : RelabelConfig) (re : Regexp)
    (ha : cfg.action = "replace") (hre : cfg.regex = some re) :
    (re.find (probeVal lset cfg) = none → relabel lset cfg = .ok (some lset)) ∧
    (∀ groups, re.find (probeVal lset cfg) = some groups →
      relabel lset cfg = .ok (some (
        if !isValidLabelName (expandTemplate cfg.targetLabel groups re.names) then
          delLabel lset cfg.targetLabel
        else if expandTemplate cfg.replacement groups re.names = "" then
          delLabel lset cfg.targetLabel
        else setLabel lset (expandTemplate cfg.targetLabel groups re.names)
          (expandTemplate cfg.replacement groups re.names)))) := by
  constructor
  · intro h
    rw [relabel_replace_eq lset cfg re ha hre, h]
  · intro groups h
    rw [relabel_replace_eq lset cfg re ha hre, h]
    cases hv : isValidLabelName (expandTemplate cfg.targetLabel groups re.names)
    · simp [hv]
    · by_cases hr : expandTemplate cfg.replacement groups re.names = "" <;> simp [hv, hr]

/-- Witness for C4: the literal replace scenario of the spec — a host:port
address, target host, replacement the first capture group. -/
theorem relabel_replace_semantics_witness :
    relabel exAddr replaceAddrCfg
      = .ok (some [⟨"addr", "a.example:80"⟩, ⟨"host", "a.example"⟩]) := by
  have h := (relabel_replace_semantics exAddr replaceAddrCfg addrRe rfl rfl).2
    [some "a.example:80", some "a.example", some "80"] (by decide)
  exact h.trans (by decide)

set_option maxRecDepth 40000 in
/-- C5 counterexample: the claim says the digest is the FIRST 8 bytes of
the MD5 hash interpreted big-endian; at the concrete empty probe string the
value relabel writes differs from that reading, because shifting a uint64
by 64 or more bits yields zero in Go, so the first 8 hash bytes never reach
the accumulator of sum64. -/
theorem hashmod_first_bytes_counterexample :
    relabel [] hashEmptyCfg
      ≠ .ok (some (setLabel [] hashEmptyCfg.targetLabel
          (toString (beBytes ((md5Bytes (strBytes (probeVal [] hashEmptyCfg))).take 8)
            % hashEmptyCfg.modulus)))) := by decide

/-- C5 (amended): for every probe string V, the HashMod action computes its
64-bit digest as the LAST 8 bytes of the MD5 hash of V interpreted
big-endian (the first 8 bytes are discarded because their uint64 shifts of
64 or more bits vanish), takes that value modulo the rule's modulus, and
sets the target label to the decimal representation of the result. -/
theorem hashmod_digest_last_bytes (lset : Labels) (cfg : RelabelConfig)
    (ha : cfg.action = "hashmod") (hm : 0 < cfg.modulus) :
    relabel lset cfg = .ok (some (setLabel lset cfg.targetLabel
      (toString (beBytes ((md5Bytes (strBytes (probeVal lset cfg))).drop 8)
        % cfg.modulus)))) := by
  rw [relabel_hashmod_eq lset cfg ha]
  have h0 : cfg.modulus ≠ 0 := by omega
  simp only [h0, if_false]
  rw [sum64_md5]

/-- Witness for C5 (amended): the HashMod determinism scenario of the spec,
instance foo with modulus 8. -/
theorem hashmod_digest_last_bytes_witness :
    relabel exInst hashCfg = .ok (some (setLabel exInst hashCfg.targetLabel
      (toString (beBytes ((md5Bytes (strBytes (probeVal exInst hashCfg))).drop 8)
        % hashCfg.modulus)))) :=
  hashmod_digest_last_bytes exInst hashCfg rfl (by decide)

/-- C6: a HashMod rule with positive modulus writes a numeric value in the
interval from 0 inclusive to the modulus exclusive to the target label. -/
theorem hashmod_result_lt_modulus (lset : Labels) (cfg : RelabelConfig)
    (ha : cfg.action = "hashmod") (hm : 0 < cfg.modulus) :
    ∃ v, relabel lset cfg
        = .ok (some (setLabel lset cfg.targetLabel (toString v))) ∧ v < cfg.modulus := by
  refine ⟨sum64 (md5Bytes (strBytes (probeVal lset cfg))) % cfg.modulus, ?_,
    Nat.mod_lt _ hm⟩
  rw [relabel_hashmod_eq lset cfg ha]
  have h0 : cfg.modulus ≠ 0 := by omega
  simp [h0]

/-- Witness for C6: instance foo hashed modulo 8 lands below 8. -/
theorem hashmod_result_lt_modulus_witness :
    ∃ v, relabel exInst hashCfg
        = .ok (some (setLabel exInst hashCfg.targetLabel (toString v)))
      ∧ v < hashCfg.modulus :=
  hashmod_result_lt_modulus exInst hashCfg rfl (by decide)

/-- C7 counterexample: a Replace rule with empty replacement whose regex
does not match the probe string leaves the label set unchanged and is
therefore not equivalent to deleting the target label. -/
theorem replace_empty_not_always_del :
    relabel exA emptyRepNoMatchCfg
      ≠ .ok (some (delLabel exA emptyRepNoMatchCfg.targetLabel)) := by decide

/-- C7 (amended): applying a Replace rule whose replacement template is the
empty string is equivalent to deleting the rule's target label, provided
the rule's regex has a match in the probe string V; with no match the rule
is a no-op. -/
theorem replace_empty_del_on_match (lset : Labels) (cfg : RelabelConfig) (re : Regexp)
    (groups : List (Option String))
    (ha : cfg.action = "replace") (hre : cfg.regex = some re)
    (hrep : cfg.replacement = "")
    (hm : re.find (probeVal lset cfg) = some groups) :
    relabel lset cfg = .ok (some (delLabel lset cfg.targetLabel)) := by
  rw [relabel_replace_eq lset cfg re ha hre, hm]
  have he : expandTemplate "" groups re.names = "" := rfl
  cases hv : isValidLabelName (expandTemplate cfg.targetLabel groups re.names) <;>
    simp [hv, hrep, he]

/-- Witness for C7 (amended): an empty replacement with a matching regex
deletes the target label job. -/
theorem replace_empty_del_on_match_witness :
    relabel exCanary emptyRepMatchCfg = .ok (some (delLabel exCanary "job")) :=
  replace_empty_del_on_match exCanary emptyRepMatchCfg canaryRe [some "canary"]
    rfl rfl rfl (by decide)

/-- C8: LabelKeep is idempotent — applying a LabelKeep rule twice in
succession through the pipeline yields the same result as applying it
once. -/
theorem labelkeep_idempotent (lset : Labels) (cfg : RelabelConfig) (re : Regexp)
    (ha : cfg.action = "labelkeep") (hre : cfg.regex = some re) :
    Process lset [cfg, cfg] = Process lset [cfg] := by
  have hk1 : relabel lset cfg
      = .ok (some (lset.filter (fun x => re.matchString x.name))) := by
    rw [relabel_labelkeep_eq lset cfg re ha hre, labelKeep_filter]
  have hk2 : relabel (lset.filter (fun x => re.matchString x.name)) cfg
      = .ok (some (lset.filter (fun x => re.matchString x.name))) := by
    rw [relabel_labelkeep_eq _ cfg re ha hre, labelKeep_idem]
  simp [Process, hk1, hk2]

/-- Witness for C8: keeping only the label named job twice equals keeping
it once. -/
theorem labelkeep_idempotent_witness :
    Process exTwo [labelKeepJobCfg, labelKeepJobCfg] = Process exTwo [labelKeepJobCfg] :=
  labelkeep_idempotent exTwo labelKeepJobCfg jobRe rfl rfl

/-- C9: relabel aborts on a rule whose action is none of the seven known
actions, and with a known action and validated configuration (positive
modulus for HashMod, a regex present otherwise) the abort branch is
unreachable and relabel returns normally. -/
theorem relabel_abort_conditions (lset : Labels) (cfg : RelabelConfig) :
    (cfg.action ∉ knownActions → ∃ e, relabel lset cfg = .error e) ∧
    (cfg.action ∈ knownActions →
      (cfg.action = "hashmod" → 0 < cfg.modulus) →
      (cfg.action ≠ "hashmod" → cfg.regex.isSome) →
      ∃ r, relabel lset cfg = .ok r) := by
  constructor
  · intro ha
    exact ⟨_, relabel_unknown_eq lset cfg ha⟩
  · intro ha hm hre
    simp only [knownActions, List.mem_cons, List.not_mem_nil, or_false] at ha
    rcases ha with ha | ha | ha | ha | ha | ha | ha
    · obtain ⟨re, hre'⟩ := Option.isSome_iff_exists.mp (hre (by simp [ha]))
      rw [relabel_replace_eq lset cfg re ha hre']
      rcases h : re.find (probeVal lset cfg) with _ | groups <;> simp only [h]
      · exact ⟨some lset, rfl⟩
      · split
        · exact ⟨_, rfl⟩
        · split <;> exact ⟨_, rfl⟩
    · obtain ⟨re, hre'⟩ := Option.isSome_iff_exists.mp (hre (by simp [ha]))
      rw [relabel_keep_eq lset cfg re ha hre']
      split <;> exact ⟨_, rfl⟩
    · obtain ⟨re, hre'⟩ := Option.isSome_iff_exists.mp (hre (by simp [ha]))
      rw [relabel_drop_eq lset cfg re ha hre']
      split <;> exact ⟨_, rfl⟩
    · rw [relabel_hashmod_eq lset cfg ha]
      have h0 : cfg.modulus ≠ 0 := by have := hm ha; omega
      simp only [h0, if_false]
      exact ⟨_, rfl⟩
    · obtain ⟨re, hre'⟩ := Option.isSome_iff_exists.mp (hre (by simp [ha]))
      rw [relabel_labelmap_eq lset cfg re ha hre']
      exact ⟨_, rfl⟩
    · obtain ⟨re, hre'⟩ := Option.isSome_iff_exists.mp (hre (by simp [ha]))
      rw [relabel_labeldrop_eq lset cfg re ha hre']
      exact ⟨_, rfl⟩
    · obtain ⟨re, hre'⟩ := Option.isSome_iff_exists.mp (hre (by simp [ha]))
      rw [relabel_labelkeep_eq lset cfg re ha hre']
      exact ⟨_, rfl⟩

/-- Witness for C9: a rule with the unknown action foobar aborts, and a
validated drop rule returns normally. -/
theorem relabel_abort_conditions_witness :
    (∃ e, relabel exA unknownCfg = .error e)
    ∧ (∃ r, relabel exCanary dropCfg = .ok r) := by
  constructor
  · exact (relabel_abort_conditions exA unknownCfg).1 (by decide)
  · exact (relabel_abort_conditions exCanary dropCfg).2 (by decide) (by decide) (by decide)

/-- C10: Drop and Keep act only as filters — whenever they do not drop the
label set, they return it unchanged, never adding, deleting, or modifying
a label. -/
theorem drop_keep_frame (lset : Labels) (cfg : RelabelConfig) (re : Regexp)
    (ha : cfg.action = "drop" ∨ cfg.action = "keep") (hre : cfg.regex = some re) :
    relabel lset cfg = .ok none ∨ relabel lset cfg = .ok (some lset) := by
  rcases ha with ha | ha
  · rw [relabel_drop_eq lset cfg re ha hre]
    by_cases h : re.matchString (probeVal lset cfg) <;> simp [h]
  · rw [relabel_keep_eq lset cfg re ha hre]
    by_cases h : re.matchString (probeVal lset cfg) <;> simp [h]

/-- Witness for C10: the drop rule leaves the non-matching prod label set
either dropped or unchanged — concretely unchanged. -/
theorem drop_keep_frame_witness :
    relabel exProd dropCfg = .ok none ∨ relabel exProd dropCfg = .ok (some exProd) :=
  drop_keep_frame exProd dropCfg canaryRe (Or.inl rfl) rfl
